import Mathlib

/-!
Shallow embedding of the bulk-fetch protocol of the Wrapped-Stablecoins
dataset repository, centred on
`CoinbaseDataFetcher.fetch_complete_historical_data`
(src/Crypto_Price_Data/BTC_USD_Price_5min/5-min-btc-usd.py) and
`BinanceHourlyHistoricalData.get_hourly_klines`
(src/Leverage_Data/leverage-data.py).

Records carry their natural key (`timestamp`, seconds or ms since epoch as a
`Nat`) plus one representative value column; the remaining OHLCV columns play
no role in ordering, de-duplication, retries or checkpointing.  Network
responses are supplied by an environment function; file-system effects are
recorded as an explicit trace; the `while` loops are run on fuel chosen large
enough to cover every terminating execution of the Python code.
-/

namespace WrappedStable

/-- One fetched row (a candle).  Natural key: `timestamp`. -/
structure Record where
  timestamp : Nat
  close : Int
deriving DecidableEq, Repr

/-- `df.drop_duplicates(subset=['timestamp'])`: keep the first occurrence of
each timestamp, in order.  `seen` is the set of keys already kept. -/
def dropDupTsGo (seen : List Nat) : List Record → List Record
  | [] => []
  | r :: rs =>
    if r.timestamp ∈ seen then dropDupTsGo seen rs
    else r :: dropDupTsGo (r.timestamp :: seen) rs

def dropDupTs (l : List Record) : List Record := dropDupTsGo [] l

/-- Insert `r` after every element whose timestamp is `≤ r.timestamp`
(stable insertion). -/
def insertTs (r : Record) : List Record → List Record
  | [] => [r]
  | x :: xs =>
    if x.timestamp ≤ r.timestamp then x :: insertTs r xs else r :: x :: xs

/-- `df.sort_values('timestamp')`: stable ascending sort by the natural key. -/
def sortTs (l : List Record) : List Record :=
  l.foldl (fun acc r => insertTs r acc) []

/-- `existing_df['timestamp'].max()` (pandas max over the key column). -/
def tsMax (l : List Record) : Nat :=
  l.foldl (fun acc r => Nat.max acc r.timestamp) 0

/-- Outcome of one HTTP request as seen by `fetch_candles`:
a 2xx body with a `candles` list, a 2xx body without one, a non-2xx status
(`raise_for_status` turns it into an exception), or a transport failure. -/
inductive HttpResponse where
  | ok (candles : List Record)
  | okNoCandles
  | status (code : Nat)
  | netError
deriving DecidableEq, Repr

/-- `granularity in self.granularity_map` (keys 60, 300, 900, 3600, 21600,
86400 seconds). -/
def granularityValid (g : Nat) : Bool :=
  g == 60 || g == 300 || g == 900 || g == 3600 || g == 21600 || g == 86400

/-- The `end` request parameter after the `num_candles > 300` clamp in
`fetch_candles`. -/
def adjEnd (g s e : Nat) : Nat :=
  if 300 * g < e - s then s + 300 * g else e

/-- The environment: responds to a request with parameters
`(start, end)` on its `attempt`-th retry within the current window. -/
def Env : Type := Nat → Nat → Nat → HttpResponse

/-- `fetch_candles(start, end, granularity)`: returns the parsed, per-batch
sorted records, or `none` on any failure (invalid granularity, missing or
empty `candles`, HTTP error status, transport error).  Also returns the list
of HTTP requests actually issued (empty when the granularity check fails
before the request). -/
def fetchCandles (env : Env) (g s e a : Nat) :
    Option (List Record) × List (Nat × Nat) :=
  if granularityValid g then
    let e' := adjEnd g s e
    (match env s e' a with
     | .ok candles => if candles.isEmpty then none else some (sortTs candles)
     | .okNoCandles => none
     | .status _ => none
     | .netError => none,
     [(s, e')])
  else (none, [])

/-- The inner retry loop of `fetch_complete_historical_data`:
`while retry_count < max_retries and df is None`, called with `budget = 3`.
Returns the first successful batch (if any) and the log of issued requests. -/
def retryFetch (env : Env) (g s e : Nat) :
    Nat → Nat → Option (List Record) × List (Nat × Nat)
  | 0, _ => (none, [])
  | budget + 1, a =>
    match fetchCandles env g s e a with
    | (some d, req) => (some d, req)
    | (none, req) =>
      let (r, rest) := retryFetch env g s e budget (a + 1)
      (r, req ++ rest)

/-- A file path touched by the run: the main checkpoint CSV
(`btc_usd_checkpoint_complete.csv`) or a hypothetical temporary file. -/
inductive CkPath where
  | main
  | temp (n : Nat)
deriving DecidableEq, Repr

/-- A file-system effect of the run.  `write p n recs` is a direct
(in-place) write of `recs` to `p` issued while `request_count = n`;
`rename` is a file rename (never emitted by this code);
`removeCkpt` is `os.remove(main_checkpoint)`;
`writeFailed ws` writes the permanently failed windows to
`failed_requests.txt`; `writeYearly` covers the per-year backup CSVs. -/
inductive FsOp where
  | write (p : CkPath) (atReq : Nat) (recs : List Record)
  | rename (src dst : CkPath)
  | removeCkpt
  | writeFailed (ws : List (Nat × Nat))
  | writeYearly (recs : List Record)
deriving DecidableEq, Repr

def FsOp.isRenameOp : FsOp → Bool
  | .rename _ _ => true
  | _ => false

/-- The checkpoint file on disk: absent, present but unparseable, or present
with row set `recs`. -/
inductive CkFile where
  | absent
  | corrupt
  | valid (recs : List Record)
deriving DecidableEq, Repr

/-- Loop state of `fetch_complete_historical_data`:
`all_data` (list of appended batches), `current_start`, `request_count`,
`failed_requests`, plus the instrumented request log, file-system trace and
checkpoint-file state. -/
structure St where
  allData : List (List Record)
  cur : Nat
  reqCount : Nat
  failed : List (Nat × Nat)
  requests : List (Nat × Nat)
  trace : List FsOp
  ckpt : CkFile
deriving Repr

/-- One iteration of the `while current_start < end_date` loop body. -/
def step (env : Env) (g E B : Nat) (st : St) : St :=
  let rc := st.reqCount + 1
  let we := min (st.cur + B) E
  let (df, reqs) := retryFetch env g st.cur we 3 0
  let failed' := if df.isNone then st.failed ++ [(st.cur, we)] else st.failed
  match df with
  | some d =>
    if d.isEmpty then
      { allData := st.allData, cur := we, reqCount := rc, failed := failed',
        requests := st.requests ++ reqs, trace := st.trace, ckpt := st.ckpt }
    else
      let ad := st.allData ++ [d]
      if rc % 100 == 0 then
        let temp := sortTs (dropDupTs ad.flatten)
        { allData := ad, cur := we, reqCount := rc, failed := failed',
          requests := st.requests ++ reqs,
          trace := st.trace ++ [.write .main rc temp, .writeYearly temp],
          ckpt := .valid temp }
      else
        { allData := ad, cur := we, reqCount := rc, failed := failed',
          requests := st.requests ++ reqs, trace := st.trace, ckpt := st.ckpt }
  | none =>
    { allData := st.allData, cur := we, reqCount := rc, failed := failed',
      requests := st.requests ++ reqs, trace := st.trace, ckpt := st.ckpt }

/-- The fetch loop, on fuel.  `none` marks a run whose Python original never
terminates (only reachable when the window size `B` is `0`). -/
def fetchLoop (env : Env) (g E B : Nat) : Nat → St → Option St
  | 0, st => if st.cur < E then none else some st
  | fuel + 1, st =>
    if st.cur < E then fetchLoop env g E B fuel (step env g E B st)
    else some st

/-- What the caller observes: the Python return value (`ret`), the
`failed_requests` list, the issued requests, the file-system trace and the
final state of the checkpoint file. -/
structure Outcome where
  ret : Option (List Record)
  failed : List (Nat × Nat)
  requests : List (Nat × Nat)
  trace : List FsOp
  ckptFinal : CkFile
deriving Repr

inductive FetchErr where
  | checkpointParse
  | nonTermination
deriving DecidableEq, Repr

/-- The epilogue after the loop: `if all_data:` combine, de-duplicate, sort,
write `failed_requests.txt` when needed, delete the checkpoint; otherwise
return `None`. -/
def finalize (st : St) : Outcome :=
  if st.allData.isEmpty then
    { ret := none, failed := st.failed, requests := st.requests,
      trace := st.trace, ckptFinal := st.ckpt }
  else
    let combined := sortTs (dropDupTs st.allData.flatten)
    let tr1 := if st.failed.isEmpty then st.trace
               else st.trace ++ [.writeFailed st.failed]
    if st.ckpt = CkFile.absent then
      { ret := some combined, failed := st.failed, requests := st.requests,
        trace := tr1, ckptFinal := st.ckpt }
    else
      { ret := some combined, failed := st.failed, requests := st.requests,
        trace := tr1 ++ [.removeCkpt], ckptFinal := .absent }

/-- `fetch_complete_historical_data(start_date, end_date, granularity)`.
`S`, `E` are the range endpoints as Unix seconds, `ck0` the checkpoint file
found on disk.  A corrupt checkpoint makes `pd.read_csv` raise; the
exception is not caught, so the run dies (`Except.error .checkpointParse`).
When the checkpoint is valid the accumulator starts as `[recs]` and
`current_start` becomes `max timestamp + granularity` (an empty checkpoint
gives pandas `NaT`, whose comparison with `end_date` is `False`, i.e. the
loop never runs — modelled by starting at `E`). -/
def fetch_complete_historical_data (env : Env) (g S E : Nat) (ck0 : CkFile) :
    Except FetchErr Outcome :=
  match ck0 with
  | .corrupt => .error .checkpointParse
  | .absent =>
    let st0 : St :=
      { allData := [], cur := S, reqCount := 0, failed := [], requests := [],
        trace := [], ckpt := .absent }
    match fetchLoop env g E (300 * g) E st0 with
    | none => .error .nonTermination
    | some st => .ok (finalize st)
  | .valid recs =>
    let cur0 := if recs.isEmpty then E else tsMax recs + g
    let st0 : St :=
      { allData := [recs], cur := cur0, reqCount := 0, failed := [],
        requests := [], trace := [], ckpt := .valid recs }
    match fetchLoop env g E (300 * g) E st0 with
    | none => .error .nonTermination
    | some st => .ok (finalize st)

/-! Projections out of the run result, for stating properties. -/

def retOf : Except FetchErr Outcome → Option (List Record)
  | .ok o => o.ret
  | .error _ => none

def failedOf : Except FetchErr Outcome → List (Nat × Nat)
  | .ok o => o.failed
  | .error _ => []

def reqsOf : Except FetchErr Outcome → List (Nat × Nat)
  | .ok o => o.requests
  | .error _ => []

def traceOf : Except FetchErr Outcome → List FsOp
  | .ok o => o.trace
  | .error _ => []

def ckFinalOf : Except FetchErr Outcome → Option CkFile
  | .ok o => some o.ckptFinal
  | .error _ => none

def isOkE : Except FetchErr Outcome → Bool
  | .ok _ => true
  | .error _ => false

def isCkParseErr : Except FetchErr Outcome → Bool
  | .error .checkpointParse => true
  | _ => false

/-! ### An ideal time-bucketed source

For claims about a well-behaved remote source: the response to a request for
`[s, e)` is one record per granularity step, keys `s, s + g, …` strictly
below `e`, with a fixed value column `val`. -/

/-- Number of keys of spacing `g` in `[a, b)` starting at `a`
(`⌈(b − a) / g⌉`). -/
def keyCount (g a b : Nat) : Nat := (b - a + g - 1) / g

/-- The records an ideal source holds for `[a, b)` at spacing `g`. -/
def keysIn (val : Nat → Int) (g a b : Nat) : List Record :=
  (List.range (keyCount g a b)).map fun i => ⟨a + i * g, val (a + i * g)⟩

/-- The ideal source: always answers with exactly the records of the
requested interval. -/
def idealEnv (val : Nat → Int) (g : Nat) : Env :=
  fun s e _ => .ok (keysIn val g s e)

/-! ### `get_hourly_klines` (src/Leverage_Data/leverage-data.py)

Timestamps in milliseconds.  One loop iteration per HTTP request; the
environment answers the `n`-th request of the run. -/

def hourMs : Nat := 3600000

/-- Outcome of one Binance klines request: 200 with a JSON array, 429
(rate limited), another status, or a raised exception. -/
inductive KResp where
  | ok (data : List Record)
  | rate
  | errStatus (code : Nat)
  | exn
deriving DecidableEq, Repr

structure KSt where
  allKlines : List Record
  cur : Nat
deriving DecidableEq, Repr

/-- The `while current_start < end_date` loop of `get_hourly_klines`.
On 200 with data: append, move `current_start` to the last open time plus
one hour.  On 200 with an empty array, another status or an exception:
`break`.  On 429: sleep and `continue` — the very same state, no counter of
any kind is touched. -/
def klinesLoop (env : Nat → KResp) (E : Nat) : Nat → Nat → KSt → Option KSt
  | 0, _, st => if st.cur < E then none else some st
  | fuel + 1, n, st =>
    if st.cur < E then
      match env n with
      | .ok data =>
        if data.isEmpty then some st
        else
          klinesLoop env E fuel (n + 1)
            { allKlines := st.allKlines ++ data,
              cur := (data.getLastD ⟨0, 0⟩).timestamp + hourMs }
      | .rate => klinesLoop env E fuel (n + 1) st
      | .errStatus _ => some st
      | .exn => some st
    else some st

/-- `get_hourly_klines`: run the loop, then de-duplicate and sort, or return
`None` when nothing was collected.  Outer `none` marks a run whose Python
original never terminates within `fuel` requests. -/
def get_hourly_klines (env : Nat → KResp) (S E fuel : Nat) :
    Option (Option (List Record)) :=
  match klinesLoop env E fuel 0 ⟨[], S⟩ with
  | none => none
  | some st =>
    some (if st.allKlines.isEmpty then none
          else some (sortTs (dropDupTs st.allKlines)))

/-! ### Concrete environments used to settle the claims -/

/-- A source whose every request fails at the transport level. -/
def envNetErr : Env := fun _ _ _ => .netError

/-- A source answering every request with one record keyed at the window
start. -/
def envSingle : Env := fun s _ _ => .ok [⟨s, 0⟩]

/-- A source that serves the window starting at `0` and fails every other
window. -/
def envHalf : Env := fun s _ _ => if s = 0 then .ok [⟨0, 0⟩] else .netError

/-- A source answering every request with HTTP 429. -/
def env429 : Env := fun _ _ _ => .status 429

/-- A source that fails the first `k` attempts of every window and then
serves the ideal records. -/
def envFailK (val : Nat → Int) (g k : Nat) : Env :=
  fun s e a => if a < k then .netError else .ok (keysIn val g s e)

/-- A Binance source answering every request with HTTP 429. -/
def kEnvRate : Nat → KResp := fun _ => .rate

/-- Modelled from the spec: "persist the current accumulator … atomically
(write-then-rename, or equivalent, so a crash mid-write never corrupts the
previous checkpoint)".  The file-system discipline this requires: the main
checkpoint path is never written in place — any `write` targets a temporary
path, and the checkpoint is only ever installed by a rename. -/
def atomicCheckpointDiscipline (tr : List FsOp) : Bool :=
  tr.all fun op =>
    match op with
    | .write p _ _ => p != CkPath.main
    | _ => true

/-! ## Library: ordering, permutation and de-duplication facts about the
pandas helpers -/

theorem mem_insertTs (y r : Record) :
    ∀ (l : List Record), y ∈ insertTs r l ↔ y = r ∨ y ∈ l
  | [] => by simp [insertTs]
  | x :: xs => by
    by_cases h : x.timestamp ≤ r.timestamp
    · simp only [insertTs, if_pos h, List.mem_cons, mem_insertTs y r xs]
      tauto
    · simp only [insertTs, if_neg h, List.mem_cons]

theorem pairwiseLe_insertTs (r : Record) :
    ∀ (l : List Record),
      l.Pairwise (fun a b => a.timestamp ≤ b.timestamp) →
      (insertTs r l).Pairwise (fun a b => a.timestamp ≤ b.timestamp)
  | [], _ => by simp [insertTs]
  | x :: xs, h => by
    rcases List.pairwise_cons.mp h with ⟨hx, hxs⟩
    by_cases hc : x.timestamp ≤ r.timestamp
    · simp only [insertTs, if_pos hc]
      refine List.pairwise_cons.mpr ⟨?_, pairwiseLe_insertTs r xs hxs⟩
      intro y hy
      rcases (mem_insertTs y r xs).mp hy with rfl | hy'
      · exact hc
      · exact hx y hy'
    · simp only [insertTs, if_neg hc]
      refine List.pairwise_cons.mpr ⟨?_, h⟩
      intro y hy
      rcases List.mem_cons.mp hy with rfl | hy'
      · omega
      · exact le_trans (by omega) (hx y hy')

theorem perm_insertTs (r : Record) :
    ∀ (l : List Record), List.Perm (insertTs r l) (r :: l)
  | [] => by simp [insertTs]
  | x :: xs => by
    by_cases hc : x.timestamp ≤ r.timestamp
    · simp only [insertTs, if_pos hc]
      exact ((perm_insertTs r xs).cons x).trans (List.Perm.swap r x xs)
    · simp [insertTs, hc]

theorem sortGo_pairwise :
    ∀ (l acc : List Record),
      acc.Pairwise (fun a b => a.timestamp ≤ b.timestamp) →
      (List.foldl (fun a r => insertTs r a) acc l).Pairwise
        (fun a b => a.timestamp ≤ b.timestamp)
  | [], _, h => h
  | x :: xs, acc, h => sortGo_pairwise xs _ (pairwiseLe_insertTs x acc h)

theorem sortTs_pairwise (l : List Record) :
    (sortTs l).Pairwise (fun a b => a.timestamp ≤ b.timestamp) :=
  sortGo_pairwise l [] (by simp)

theorem sortGo_perm :
    ∀ (l acc : List Record),
      List.Perm (List.foldl (fun a r => insertTs r a) acc l) (acc ++ l)
  | [], acc => by simp
  | x :: xs, acc => by
    refine (sortGo_perm xs (insertTs x acc)).trans ?_
    refine ((perm_insertTs x acc).append_right xs).trans ?_
    simpa using List.perm_middle.symm

theorem sortTs_perm (l : List Record) : List.Perm (sortTs l) l := by
  simpa using sortGo_perm l []

theorem insertTs_of_le :
    ∀ (acc : List Record) (r : Record),
      (∀ x ∈ acc, x.timestamp ≤ r.timestamp) → insertTs r acc = acc ++ [r]
  | [], _, _ => rfl
  | x :: xs, r, h => by
    have hx := h x (by simp)
    simp only [insertTs, if_pos hx, List.cons_append, List.cons.injEq,
      true_and]
    exact insertTs_of_le xs r fun y hy => h y (by simp [hy])

theorem sortGo_of_sorted :
    ∀ (l acc : List Record),
      (acc ++ l).Pairwise (fun a b => a.timestamp ≤ b.timestamp) →
      List.foldl (fun a r => insertTs r a) acc l = acc ++ l
  | [], acc, _ => by simp
  | x :: xs, acc, h => by
    have hax : ∀ y ∈ acc, y.timestamp ≤ x.timestamp := by
      intro y hy
      exact (List.pairwise_append.mp h).2.2 y hy x (by simp)
    show List.foldl (fun a r => insertTs r a) (insertTs x acc) xs = acc ++ x :: xs
    rw [insertTs_of_le acc x hax]
    rw [sortGo_of_sorted xs (acc ++ [x]) (by simpa [List.append_assoc] using h)]
    simp

theorem sortTs_of_sorted (l : List Record)
    (h : l.Pairwise (fun a b => a.timestamp ≤ b.timestamp)) : sortTs l = l := by
  simpa using sortGo_of_sorted l [] (by simpa)

theorem dropDupTsGo_spec :
    ∀ (l : List Record) (seen : List Nat),
      ((dropDupTsGo seen l).map Record.timestamp).Nodup ∧
      ∀ t ∈ (dropDupTsGo seen l).map Record.timestamp, t ∉ seen
  | [], seen => by simp [dropDupTsGo]
  | r :: rs, seen => by
    by_cases h : r.timestamp ∈ seen
    · simpa [dropDupTsGo, h] using dropDupTsGo_spec rs seen
    · obtain ⟨h1, h2⟩ := dropDupTsGo_spec rs (r.timestamp :: seen)
      simp only [dropDupTsGo, if_neg h, List.map_cons]
      refine ⟨List.nodup_cons.mpr ⟨fun hc => (h2 _ hc) (by simp), h1⟩, ?_⟩
      intro t ht
      rcases List.mem_cons.mp ht with rfl | ht'
      · exact h
      · intro hc
        exact (h2 t ht') (by simp [hc])

theorem dropDupTs_nodup (l : List Record) :
    ((dropDupTs l).map Record.timestamp).Nodup :=
  (dropDupTsGo_spec l []).1

theorem dropDupTsGo_of_nodup :
    ∀ (l : List Record) (seen : List Nat),
      (l.map Record.timestamp).Nodup →
      (∀ t ∈ l.map Record.timestamp, t ∉ seen) →
      dropDupTsGo seen l = l
  | [], _, _, _ => rfl
  | r :: rs, seen, hn, hd => by
    have hn' : (∀ x ∈ rs, ¬ x.timestamp = r.timestamp) ∧
        (rs.map Record.timestamp).Nodup := by simpa using hn
    have hr : r.timestamp ∉ seen := hd _ (by simp)
    simp only [dropDupTsGo, if_neg hr, List.cons.injEq, true_and]
    refine dropDupTsGo_of_nodup rs _ hn'.2 ?_
    intro t ht
    simp only [List.mem_cons]
    rintro (rfl | hts)
    · obtain ⟨x, hx, hxt⟩ := List.mem_map.mp ht
      exact hn'.1 x hx hxt
    · exact hd t (by simp [ht]) hts

theorem dropDupTs_of_nodup (l : List Record)
    (h : (l.map Record.timestamp).Nodup) : dropDupTs l = l :=
  dropDupTsGo_of_nodup l [] h (by simp)

theorem pairwise_lt_of_le_ne :
    ∀ (l : List Nat), l.Pairwise (· ≤ ·) → l.Nodup → l.Pairwise (· < ·)
  | [], _, _ => by simp
  | x :: xs, h1, h2 => by
    rcases List.pairwise_cons.mp h1 with ⟨hx, hxs⟩
    rcases List.nodup_cons.mp h2 with ⟨hnx, hnxs⟩
    refine List.pairwise_cons.mpr ⟨?_, pairwise_lt_of_le_ne xs hxs hnxs⟩
    intro y hy
    rcases Nat.lt_or_ge x y with h | h
    · exact h
    · have : x = y := le_antisymm (hx y hy) h
      exact absurd (this ▸ hy) hnx

/-- The final `drop_duplicates` + `sort_values` pipeline always yields a
sequence whose natural keys are strictly increasing. -/
theorem sortTs_dropDupTs_strict (l : List Record) :
    ((sortTs (dropDupTs l)).map Record.timestamp).Pairwise (· < ·) := by
  have hp := sortTs_pairwise (dropDupTs l)
  have hperm :
      List.Perm ((sortTs (dropDupTs l)).map Record.timestamp)
        ((dropDupTs l).map Record.timestamp) :=
    (sortTs_perm (dropDupTs l)).map Record.timestamp
  have hnd : ((sortTs (dropDupTs l)).map Record.timestamp).Nodup :=
    hperm.nodup_iff.mpr (dropDupTs_nodup l)
  have hle : ((sortTs (dropDupTs l)).map Record.timestamp).Pairwise (· ≤ ·) :=
    List.pairwise_map.mpr hp
  exact pairwise_lt_of_le_ne _ hle hnd

/-! ## Library: facts about the ideal source's record lists -/

theorem keysIn_map_ts (val : Nat → Int) (g a b : Nat) :
    (keysIn val g a b).map Record.timestamp
      = (List.range (keyCount g a b)).map fun i => a + i * g := by
  simp [keysIn, List.map_map, Function.comp_def]

theorem keysIn_strict (val : Nat → Int) {g : Nat} (hg : 0 < g) (a b : Nat) :
    ((keysIn val g a b).map Record.timestamp).Pairwise (· < ·) := by
  rw [keysIn_map_ts]
  refine List.pairwise_map.mpr ?_
  refine (List.pairwise_lt_range _).imp ?_
  intro i j hij
  exact Nat.add_lt_add_left (Nat.mul_lt_mul_of_pos_right hij hg) a

theorem keysIn_pairwiseLe (val : Nat → Int) {g : Nat} (hg : 0 < g)
    (a b : Nat) :
    (keysIn val g a b).Pairwise (fun x y => x.timestamp ≤ y.timestamp) := by
  have := List.pairwise_map.mp (keysIn_strict val hg a b)
  exact this.imp fun h => Nat.le_of_lt h

theorem keysIn_nodup_ts (val : Nat → Int) {g : Nat} (hg : 0 < g)
    (a b : Nat) : ((keysIn val g a b).map Record.timestamp).Nodup :=
  (keysIn_strict val hg a b).imp fun h => Nat.ne_of_lt h

theorem sortTs_keysIn (val : Nat → Int) {g : Nat} (hg : 0 < g) (a b : Nat) :
    sortTs (keysIn val g a b) = keysIn val g a b :=
  sortTs_of_sorted _ (keysIn_pairwiseLe val hg a b)

theorem dropDupTs_keysIn (val : Nat → Int) {g : Nat} (hg : 0 < g)
    (a b : Nat) : dropDupTs (keysIn val g a b) = keysIn val g a b :=
  dropDupTs_of_nodup _ (keysIn_nodup_ts val hg a b)

theorem keyCount_eq_zero {g a b : Nat} (h : b ≤ a) : keyCount g a b = 0 := by
  unfold keyCount
  have hba : b - a = 0 := by omega
  rw [hba]
  rcases Nat.eq_zero_or_pos g with rfl | hg
  · rfl
  · exact Nat.div_eq_of_lt (by omega)

theorem keysIn_nil_of_ge (val : Nat → Int) {g a b : Nat} (h : b ≤ a) :
    keysIn val g a b = [] := by
  simp [keysIn, keyCount_eq_zero h]

theorem keyCount_pos {g a b : Nat} (hg : 0 < g) (h : a < b) :
    1 ≤ keyCount g a b := by
  unfold keyCount
  rw [Nat.one_le_div_iff hg]
  omega

theorem keysIn_ne_nil (val : Nat → Int) {g a b : Nat} (hg : 0 < g)
    (h : a < b) : keysIn val g a b ≠ [] := by
  have h1 := keyCount_pos hg h
  intro hc
  have h2 : (keysIn val g a b).length = 0 := by rw [hc]; rfl
  simp only [keysIn, List.length_map, List.length_range] at h2
  omega

theorem keyCount_mul {g : Nat} (hg : 0 < g) (m a : Nat) :
    keyCount g a (a + m * g) = m := by
  unfold keyCount
  have h1 : a + m * g - a + g - 1 = (g - 1) + m * g := by
    have := Nat.le_add_left (m * g) a
    omega
  rw [h1, Nat.add_mul_div_right _ _ hg, Nat.div_eq_of_lt (by omega)]
  exact Nat.zero_add m

theorem keyCount_split {g : Nat} (hg : 0 < g) (m a c : Nat)
    (h : a + m * g ≤ c) : keyCount g a c = m + keyCount g (a + m * g) c := by
  unfold keyCount
  have h1 : c - a + g - 1 = (c - (a + m * g) + g - 1) + m * g := by
    obtain ⟨M, hM⟩ : ∃ M, m * g = M := ⟨_, rfl⟩
    rw [hM] at h ⊢
    omega
  rw [h1, Nat.add_mul_div_right _ _ hg]
  exact Nat.add_comm _ _

theorem keysIn_append (val : Nat → Int) {g : Nat} (hg : 0 < g) (m a c : Nat)
    (h : a + m * g ≤ c) :
    keysIn val g a (a + m * g) ++ keysIn val g (a + m * g) c
      = keysIn val g a c := by
  unfold keysIn
  rw [keyCount_mul hg, keyCount_split hg m a c h, List.range_add,
    List.map_append, List.map_map]
  congr 1
  refine List.map_congr_left ?_
  intro j _
  have harith : a + (m + j) * g = a + m * g + j * g := by ring
  simp [Function.comp_def, harith]

theorem foldlMax_keys (val : Nat → Int) (g a : Nat) :
    ∀ (n : Nat) (d : Nat),
      List.foldl (fun acc r => Nat.max acc r.timestamp) d
        ((List.range n).map fun i => (⟨a + i * g, val (a + i * g)⟩ : Record))
      = if n = 0 then d else Nat.max d (a + (n - 1) * g)
  | 0, d => by simp
  | n + 1, d => by
    rw [List.range_succ, List.map_append, List.foldl_append,
      foldlMax_keys val g a n d]
    simp only [List.map_cons, List.map_nil, List.foldl_cons, List.foldl_nil]
    cases n with
    | zero => simp
    | succ k =>
      have hle : a + k * g ≤ a + (k + 1) * g := by
        have := Nat.mul_le_mul_right g (show k ≤ k + 1 by omega)
        omega
      simp only [if_neg (Nat.succ_ne_zero k), if_neg (Nat.succ_ne_zero _),
        Nat.add_sub_cancel, Nat.max_def]
      split_ifs <;> omega

theorem tsMax_keysIn (val : Nat → Int) {g : Nat} (hg : 0 < g) (a m : Nat)
    (hm : 1 ≤ m) :
    tsMax (keysIn val g a (a + m * g)) = a + (m - 1) * g := by
  unfold tsMax keysIn
  rw [keyCount_mul hg, foldlMax_keys val g a m 0, if_neg (by omega)]
  exact Nat.max_eq_right (Nat.zero_le _)

/-! ## Library: structure of the fetch run -/

theorem fetchLoop_exit (env : Env) (g E B : Nat) :
    ∀ (fuel : Nat) (st : St), ¬ st.cur < E →
      fetchLoop env g E B fuel st = some st
  | 0, st, h => by simp [fetchLoop, h]
  | _ + 1, st, h => by simp [fetchLoop, h]

theorem finalize_ret_shape (st : St) (xs : List Record)
    (h : (finalize st).ret = some xs) :
    xs = sortTs (dropDupTs st.allData.flatten) := by
  unfold finalize at h
  by_cases he : st.allData.isEmpty
  · simp [he] at h
  · by_cases hc : st.ckpt = CkFile.absent <;> simp_all

theorem finalize_ckptFinal (st : St)
    (h : (finalize st).ret.isSome = true) :
    (finalize st).ckptFinal = CkFile.absent := by
  unfold finalize at h ⊢
  by_cases he : st.allData.isEmpty
  · simp [he] at h
  · by_cases hc : st.ckpt = CkFile.absent <;> simp_all

theorem run_ok_finalize (env : Env) (g S E : Nat) (ck : CkFile) (o : Outcome)
    (h : fetch_complete_historical_data env g S E ck = .ok o) :
    ∃ st, o = finalize st := by
  rcases ck with _ | _ | recs <;>
    simp only [fetch_complete_historical_data] at h
  · rcases hl : fetchLoop env g E (300 * g) E
        { allData := [], cur := S, reqCount := 0, failed := [], requests := [],
          trace := [], ckpt := .absent } with _ | st
    · rw [hl] at h; simp at h
    · rw [hl] at h
      simp only [Except.ok.injEq] at h
      exact ⟨st, h.symm⟩
  · simp at h
  · rcases hl : fetchLoop env g E (300 * g) E
        { allData := [recs],
          cur := if recs.isEmpty then E else tsMax recs + g, reqCount := 0,
          failed := [], requests := [], trace := [], ckpt := .valid recs }
        with _ | st
    · rw [hl] at h; simp at h
    · rw [hl] at h
      simp only [Except.ok.injEq] at h
      exact ⟨st, h.symm⟩

/-! Behaviour of one loop iteration against the ideal source. -/

theorem adjEnd_min (g c E : Nat) :
    adjEnd g c (min (c + 300 * g) E) = min (c + 300 * g) E := by
  unfold adjEnd
  rw [if_neg]
  omega

theorem retryFetch_ideal (val : Nat → Int) {g : Nat}
    (hg : granularityValid g = true) (hg0 : 0 < g) (s e : Nat) (hse : s < e)
    (hle : e - s ≤ 300 * g) (a : Nat) :
    retryFetch (idealEnv val g) g s e 3 a
      = (some (keysIn val g s (adjEnd g s e)), [(s, adjEnd g s e)]) := by
  have hne : (keysIn val g s (adjEnd g s e)).isEmpty = false := by
    rw [List.isEmpty_eq_false]
    exact keysIn_ne_nil val hg0 (by unfold adjEnd; split <;> omega)
  simp only [retryFetch, fetchCandles, hg, idealEnv, if_pos, hne,
    Bool.false_eq_true, if_false]
  rw [sortTs_keysIn val hg0]

theorem granularityValid_pos {g : Nat} (h : granularityValid g = true) :
    0 < g := by
  unfold granularityValid at h
  simp only [Bool.or_eq_true, beq_iff_eq] at h
  rcases h with ((((h | h) | h) | h) | h) | h <;> omega

theorem step_cur (env : Env) (g E B : Nat) (st : St) :
    (step env g E B st).cur = min (st.cur + B) E := by
  simp only [step]
  rcases h : retryFetch env g st.cur (min (st.cur + B) E) 3 0 with ⟨df, reqs⟩
  rcases df with _ | d <;> simp only [h] <;> (try split) <;> (try split) <;> rfl

theorem fetchLoop_one (env : Env) (g E B : Nat) (fuel : Nat) (st : St)
    (h1 : st.cur < E) (h2 : ¬ (step env g E B st).cur < E) (h3 : fuel ≠ 0) :
    fetchLoop env g E B fuel st = some (step env g E B st) := by
  obtain ⟨f, rfl⟩ := Nat.exists_eq_succ_of_ne_zero h3
  simp [fetchLoop, h1, fetchLoop_exit env g E B f _ h2]

theorem finalize_ret_of_ne (st : St) (h : st.allData ≠ []) :
    (finalize st).ret = some (sortTs (dropDupTs st.allData.flatten)) := by
  unfold finalize
  have he : st.allData.isEmpty = false := by
    rw [List.isEmpty_eq_false]; exact h
  simp only [he, Bool.false_eq_true, if_false]
  split <;> rfl

theorem finalize_failed (st : St) : (finalize st).failed = st.failed := by
  unfold finalize
  split
  · rfl
  · split <;> split <;> rfl

theorem finalize_requests (st : St) : (finalize st).requests = st.requests := by
  unfold finalize
  split
  · rfl
  · split <;> split <;> rfl

theorem step_of_retry_some (env : Env) (g E B : Nat) (st : St)
    (d : List Record) (reqs : List (Nat × Nat))
    (h : retryFetch env g st.cur (min (st.cur + B) E) 3 0 = (some d, reqs))
    (hd : d.isEmpty = false)
    (hrc : ((st.reqCount + 1) % 100 == 0) = false) :
    step env g E B st
      = { allData := st.allData ++ [d], cur := min (st.cur + B) E,
          reqCount := st.reqCount + 1, failed := st.failed,
          requests := st.requests ++ reqs, trace := st.trace,
          ckpt := st.ckpt } := by
  simp only [step, h, hd, hrc, Option.isNone_some, Bool.false_eq_true,
    if_false]

theorem step_of_retry_none (env : Env) (g E B : Nat) (st : St)
    (reqs : List (Nat × Nat))
    (h : retryFetch env g st.cur (min (st.cur + B) E) 3 0 = (none, reqs)) :
    step env g E B st
      = { allData := st.allData, cur := min (st.cur + B) E,
          reqCount := st.reqCount + 1,
          failed := st.failed ++ [(st.cur, min (st.cur + B) E)],
          requests := st.requests ++ reqs, trace := st.trace,
          ckpt := st.ckpt } := by
  simp only [step, h, Option.isNone_none, if_true]

theorem run_ok_loop (env : Env) (g S E : Nat) (ck : CkFile) (o : Outcome)
    (h : fetch_complete_historical_data env g S E ck = .ok o) :
    ∃ st0 st, st0.trace = []
      ∧ fetchLoop env g E (300 * g) E st0 = some st ∧ o = finalize st := by
  rcases ck with _ | _ | recs <;>
    simp only [fetch_complete_historical_data] at h
  · rcases hl : fetchLoop env g E (300 * g) E
        { allData := [], cur := S, reqCount := 0, failed := [], requests := [],
          trace := [], ckpt := .absent } with _ | st
    · rw [hl] at h; simp at h
    · rw [hl] at h
      simp only [Except.ok.injEq] at h
      exact ⟨_, st, rfl, hl, h.symm⟩
  · simp at h
  · rcases hl : fetchLoop env g E (300 * g) E
        { allData := [recs],
          cur := if recs.isEmpty then E else tsMax recs + g, reqCount := 0,
          failed := [], requests := [], trace := [], ckpt := .valid recs }
        with _ | st
    · rw [hl] at h; simp at h
    · rw [hl] at h
      simp only [Except.ok.injEq] at h
      exact ⟨_, st, rfl, hl, h.symm⟩

/-- The ops a loop iteration can append to the trace: a checkpoint write at
a request count divisible by 100, plus the yearly backups. -/
theorem step_trace_pres (env : Env) (g E B : Nat) (st : St) (op : FsOp)
    (hop : op ∈ (step env g E B st).trace) :
    op ∈ st.trace
    ∨ (∃ n recs, op = FsOp.write CkPath.main n recs ∧ n % 100 = 0)
    ∨ (∃ recs, op = FsOp.writeYearly recs) := by
  revert hop
  rcases h : retryFetch env g st.cur (min (st.cur + B) E) 3 0 with ⟨df, reqs⟩
  rcases df with _ | d <;> simp only [step, h]
  · exact fun hop => Or.inl hop
  · split
    · exact fun hop => Or.inl hop
    · split
      · rename_i hb
        intro hop
        rcases List.mem_append.mp hop with hop | hop
        · exact Or.inl hop
        · rcases List.mem_cons.mp hop with rfl | hop
          · exact Or.inr (Or.inl ⟨_, _, rfl, by
              have := hb
              simp only [beq_iff_eq] at this
              exact this⟩)
          · rcases List.mem_cons.mp hop with rfl | hop
            · exact Or.inr (Or.inr ⟨_, rfl⟩)
            · simp at hop
      · exact fun hop => Or.inl hop

theorem fetchLoop_trace_pres (env : Env) (g E B : Nat) :
    ∀ (fuel : Nat) (st st' : St),
      fetchLoop env g E B fuel st = some st' → ∀ op ∈ st'.trace,
        op ∈ st.trace
        ∨ (∃ n recs, op = FsOp.write CkPath.main n recs ∧ n % 100 = 0)
        ∨ (∃ recs, op = FsOp.writeYearly recs)
  | 0, st, st', h => by
    by_cases hc : st.cur < E
    · simp [fetchLoop, hc] at h
    · simp only [fetchLoop, hc, if_false, Option.some.injEq] at h
      subst h
      exact fun op hop => Or.inl hop
  | fuel + 1, st, st', h => by
    by_cases hc : st.cur < E
    · simp only [fetchLoop, hc, if_true] at h
      intro op hop
      rcases fetchLoop_trace_pres env g E B fuel _ st' h op hop with
        h1 | h1 | h1
      · exact step_trace_pres env g E B st op h1
      · exact Or.inr (Or.inl h1)
      · exact Or.inr (Or.inr h1)
    · simp only [fetchLoop, hc, if_false, Option.some.injEq] at h
      subst h
      exact fun op hop => Or.inl hop

theorem finalize_trace_pres (st : St) (op : FsOp)
    (hop : op ∈ (finalize st).trace) :
    op ∈ st.trace ∨ op = FsOp.writeFailed st.failed ∨ op = FsOp.removeCkpt := by
  by_cases he : st.allData.isEmpty = true <;>
    by_cases hf : st.failed.isEmpty = true <;>
    by_cases hck : st.ckpt = CkFile.absent <;>
    simp only [finalize, he, hf, hck, if_true, if_false, Bool.false_eq_true,
      List.mem_append, List.mem_singleton] at hop <;>
    tauto

theorem step_ideal (val : Nat → Int) {g : Nat}
    (hg : granularityValid g = true) (hg0 : 0 < g) (E : Nat) (st : St)
    (hcur : st.cur < E) :
    (step (idealEnv val g) g E (300 * g) st).allData
        = st.allData ++ [keysIn val g st.cur (min (st.cur + 300 * g) E)]
    ∧ (step (idealEnv val g) g E (300 * g) st).cur
        = min (st.cur + 300 * g) E := by
  have hwe1 : st.cur < min (st.cur + 300 * g) E := by omega
  have hwe2 : min (st.cur + 300 * g) E - st.cur ≤ 300 * g := by omega
  have hr := retryFetch_ideal val hg hg0 st.cur (min (st.cur + 300 * g) E)
    hwe1 hwe2 0
  rw [adjEnd_min] at hr
  have hne : (keysIn val g st.cur (min (st.cur + 300 * g) E)).isEmpty
      = false := by
    rw [List.isEmpty_eq_false]
    exact keysIn_ne_nil val hg0 hwe1
  simp only [step, hr, hne, Option.isNone_some, Bool.false_eq_true, if_false]
  constructor <;> (split <;> rfl)

theorem fetchLoop_ideal (val : Nat → Int) {g : Nat}
    (hg : granularityValid g = true) (hg0 : 0 < g) (E : Nat) :
    ∀ (fuel : Nat) (st : St), E - st.cur ≤ fuel →
      ∃ st', fetchLoop (idealEnv val g) g E (300 * g) fuel st = some st'
        ∧ st'.allData.flatten = st.allData.flatten ++ keysIn val g st.cur E
        ∧ (st.allData ≠ [] ∨ st.cur < E → st'.allData ≠ [])
  | 0, st, hfuel => by
    have hcur : ¬ st.cur < E := by omega
    refine ⟨st, by simp [fetchLoop, hcur], ?_, ?_⟩
    · rw [keysIn_nil_of_ge val (by omega)]; simp
    · rintro (h | h)
      · exact h
      · omega
  | fuel + 1, st, hfuel => by
    by_cases hcur : st.cur < E
    · obtain ⟨hAD, hCur⟩ := step_ideal val hg hg0 E st hcur
      have hf1 : E - (step (idealEnv val g) g E (300 * g) st).cur ≤ fuel := by
        rw [hCur]; omega
      obtain ⟨st', h1, h2, h3⟩ := fetchLoop_ideal val hg hg0 E fuel _ hf1
      refine ⟨st', by simp [fetchLoop, hcur, h1], ?_, ?_⟩
      · rw [h2, hAD, hCur, List.flatten_append]
        simp only [List.flatten_cons, List.flatten_nil, List.append_nil]
        rw [List.append_assoc]
        congr 1
        rcases le_or_lt (st.cur + 300 * g) E with hle | hlt
        · have hwe : min (st.cur + 300 * g) E = st.cur + 300 * g := by omega
          rw [hwe]
          exact keysIn_append val hg0 300 st.cur E (by omega)
        · have hwe : min (st.cur + 300 * g) E = E := by omega
          rw [hwe, keysIn_nil_of_ge val (Nat.le_refl E)]
          simp
      · intro _
        exact h3 (Or.inl (by simp [hAD]))
    · refine ⟨st, by simp [fetchLoop, hcur], ?_, ?_⟩
      · rw [keysIn_nil_of_ge val (by omega)]; simp
      · rintro (h | h)
        · exact h
        · omega

/-! ## The claims -/

/-- **C1**: for every run of `fetch_complete_historical_data` — any source
behaviour, any range, any checkpoint found on disk — if the run returns a
record sequence, that sequence is sorted ascending by the natural key
(timestamp) with no duplicate keys, i.e. its keys are strictly
increasing; this holds in particular when windows returned overlapping
records. -/
theorem claim_C1 (env : Env) (g S E : Nat) (ck : CkFile) (xs : List Record)
    (h : retOf (fetch_complete_historical_data env g S E ck) = some xs) :
    (xs.map Record.timestamp).Pairwise (· < ·) := by
  rcases hE : fetch_complete_historical_data env g S E ck with e | o
  · rw [hE] at h; simp [retOf] at h
  · obtain ⟨st, rfl⟩ := run_ok_finalize env g S E ck o hE
    rw [hE] at h
    simp only [retOf] at h
    rw [finalize_ret_shape st xs h]
    exact sortTs_dropDupTs_strict _

/-- Witness for C1 at a concrete one-window run. -/
theorem claim_C1_witness :
    retOf (fetch_complete_historical_data envSingle 300 0 90000 .absent)
        = some [⟨0, 0⟩]
    ∧ (([(⟨0, 0⟩ : Record)]).map Record.timestamp).Pairwise (· < ·) :=
  ⟨by decide, claim_C1 envSingle 300 0 90000 .absent [⟨0, 0⟩] (by decide)⟩

/-- **C5** (amended): a call with `RangeStart ≥ RangeEnd` does not raise any
error — no `InvalidRangeError` exists in the code.  The loop guard is simply
false, so the run issues no network request, accumulates nothing, and
returns `None`. -/
theorem claim_C5 (env : Env) (g S E : Nat) (h : E ≤ S) :
    fetch_complete_historical_data env g S E .absent
      = .ok { ret := none, failed := [], requests := [], trace := [],
              ckptFinal := .absent } := by
  have hx : ¬ (S < E) := by omega
  simp only [fetch_complete_historical_data]
  rw [fetchLoop_exit env g E (300 * g) E _ hx]
  simp [finalize]

/-- Witness for C5 at `S = 100`, `E = 50`. -/
theorem claim_C5_witness :
    (50 : Nat) ≤ 100
    ∧ fetch_complete_historical_data envNetErr 300 100 50 .absent
        = .ok { ret := none, failed := [], requests := [], trace := [],
                ckptFinal := .absent } :=
  ⟨by decide, claim_C5 envNetErr 300 100 50 (by decide)⟩

/-- Counterexample to C5 as stated: with `RangeStart = 100 > RangeEnd = 50`
the operation does not fail at all — it returns successfully (`Except.ok`,
with `ret = None`), and no request is issued.  There is no
`InvalidRangeError` anywhere in the code. -/
theorem claim_C5_cex :
    isOkE (fetch_complete_historical_data envNetErr 300 100 50 .absent) = true
    ∧ reqsOf (fetch_complete_historical_data envNetErr 300 100 50 .absent)
        = [] := by decide

/-- **C6** (amended): when the checkpoint file is absent the run starts
fresh from `RangeStart`; but when the checkpoint file exists and is corrupt
(unparseable), `pd.read_csv` raises and nothing catches it — the run
crashes instead of starting fresh. -/
theorem claim_C6 (env : Env) (g S E : Nat) :
    fetch_complete_historical_data env g S E .corrupt
      = .error .checkpointParse := rfl

/-- Counterexample to C6 as stated: on a corrupt checkpoint the run dies
with the parse error, while the same run with no checkpoint completes —
corruption does not lead to a fresh run. -/
theorem claim_C6_cex :
    isCkParseErr (fetch_complete_historical_data envNetErr 300 0 90000
        .corrupt) = true
    ∧ isOkE (fetch_complete_historical_data envNetErr 300 0 90000 .absent)
        = true := by decide

/-- **C10**: whenever the run returns a record sequence (the accumulator's
batch list is non-empty) the checkpoint file is deleted before returning —
also on partially completed runs with a non-empty failed set, since the
deletion is unconditional inside the `if all_data:` branch — so no
checkpoint survives a run that returns data. -/
theorem claim_C10 (env : Env) (g S E : Nat) (ck : CkFile)
    (h : (retOf (fetch_complete_historical_data env g S E ck)).isSome
        = true) :
    ckFinalOf (fetch_complete_historical_data env g S E ck)
      = some CkFile.absent := by
  rcases hE : fetch_complete_historical_data env g S E ck with e | o
  · rw [hE] at h; simp [retOf] at h
  · obtain ⟨st, rfl⟩ := run_ok_finalize env g S E ck o hE
    rw [hE] at h
    simp only [retOf] at h
    simp only [ckFinalOf]
    rw [finalize_ckptFinal st h]

/-- Witness for C10 at a concrete partially-failing resumed run: data is
returned, one window failed permanently, and the checkpoint file state ends
absent. -/
theorem claim_C10_witness :
    (retOf (fetch_complete_historical_data envHalf 300 0 180000
        (.valid [⟨0, 0⟩]))).isSome = true
    ∧ ckFinalOf (fetch_complete_historical_data envHalf 300 0 180000
        (.valid [⟨0, 0⟩])) = some CkFile.absent :=
  ⟨by decide, claim_C10 envHalf 300 0 180000 (.valid [⟨0, 0⟩]) (by decide)⟩

/-- **C4** (amended): in `get_hourly_klines` (the Binance fetcher) an HTTP
429 response makes the loop sleep and retry the very same window with the
whole state unchanged — there is no retry counter at all, so nothing is
counted against any budget; the Coinbase fetcher, by contrast, treats 429
like any other failure (see the counterexample). -/
theorem claim_C4 (env : Nat → KResp) (E fuel n : Nat) (st : KSt)
    (h : env n = .rate) :
    klinesLoop env E (fuel + 1) n st = klinesLoop env E fuel (n + 1) st := by
  by_cases hc : st.cur < E
  · simp [klinesLoop, hc, h]
  · cases fuel <;> simp [klinesLoop, hc]

/-- Witness for C4: one 429 step of the Binance loop is a pure retry. -/
theorem claim_C4_witness :
    kEnvRate 0 = .rate
    ∧ klinesLoop kEnvRate 5 1 0 ⟨[], 0⟩ = klinesLoop kEnvRate 5 0 1 ⟨[], 0⟩ :=
  ⟨rfl, claim_C4 kEnvRate 5 0 0 ⟨[], 0⟩ rfl⟩

/-- Counterexample to C4 as stated: in the Coinbase fetcher
(`fetch_candles` + `fetch_complete_historical_data`), `raise_for_status`
turns HTTP 429 into an ordinary failure, so a window answered 429 three
times consumes the whole `MaxRetries` budget and is abandoned — it is not
retried indefinitely and the rate-limit responses are counted. -/
theorem claim_C4_cex :
    failedOf (fetch_complete_historical_data env429 300 0 90000 .absent)
        = [(0, 90000)]
    ∧ (reqsOf (fetch_complete_historical_data env429 300 0 90000
        .absent)).length = 3 := by decide

/-- **C7** (amended): every file-system operation of any run of
`fetch_complete_historical_data` is rename-free, and every write to a CSV
path is a direct in-place write of the checkpoint file
(`btc_usd_checkpoint_complete.csv`) performed while `request_count` is a
multiple of 100 — there is no write-then-rename, so the persist is not
atomic. -/
theorem claim_C7 (env : Env) (g S E : Nat) (ck : CkFile) (op : FsOp)
    (hop : op ∈ traceOf (fetch_complete_historical_data env g S E ck)) :
    op.isRenameOp = false
    ∧ ∀ p n recs, op = FsOp.write p n recs
        → p = CkPath.main ∧ n % 100 = 0 := by
  rcases hE : fetch_complete_historical_data env g S E ck with e | o
  · rw [hE] at hop; simp [traceOf] at hop
  · obtain ⟨st0, st, htr0, hloop, rfl⟩ := run_ok_loop env g S E ck o hE
    rw [hE] at hop
    simp only [traceOf] at hop
    rcases finalize_trace_pres st op hop with h1 | h1 | h1
    · rcases fetchLoop_trace_pres env g E (300 * g) E st0 st hloop op h1 with
        h2 | h2 | h2
      · rw [htr0] at h2; simp at h2
      · obtain ⟨n, recs, rfl, hn⟩ := h2
        refine ⟨rfl, ?_⟩
        intro p' n' recs' hEq
        cases hEq
        exact ⟨rfl, hn⟩
      · obtain ⟨recs, rfl⟩ := h2
        exact ⟨rfl, by intro p' n' recs' hEq; cases hEq⟩
    · subst h1
      exact ⟨rfl, by intro p' n' recs' hEq; cases hEq⟩
    · subst h1
      exact ⟨rfl, by intro p' n' recs' hEq; cases hEq⟩

/-- Witness for C7 at a run whose trace is non-empty. -/
theorem claim_C7_witness :
    FsOp.writeFailed [(90000, 180000)]
        ∈ traceOf (fetch_complete_historical_data envHalf 300 0 180000
            .absent)
    ∧ (FsOp.writeFailed [(90000, 180000)]).isRenameOp = false :=
  ⟨by decide,
   (claim_C7 envHalf 300 0 180000 .absent
      (FsOp.writeFailed [(90000, 180000)]) (by decide)).1⟩

set_option maxRecDepth 40000 in
set_option maxHeartbeats 1000000 in
/-- Counterexample to C7 as stated: a run of 100 successful windows writes
its checkpoint by a direct in-place write to the checkpoint path — the
write-then-rename discipline demanded by the claim is violated. -/
theorem claim_C7_cex :
    atomicCheckpointDiscipline (traceOf (fetch_complete_historical_data
        envSingle 60 0 1800000 .absent)) = false := by decide

/-- **C8** (amended): the Python return value of the run is only the
de-duplicated ordered record sequence; the permanently failed windows are
surfaced on the side — whenever a run returns data and its failed set is
non-empty, the failed windows are written to `failed_requests.txt` — but
they are not part of the returned value. -/
theorem claim_C8 (env : Env) (g S E : Nat) (ck : CkFile)
    (h1 : (retOf (fetch_complete_historical_data env g S E ck)).isSome
        = true)
    (h2 : failedOf (fetch_complete_historical_data env g S E ck) ≠ []) :
    FsOp.writeFailed (failedOf (fetch_complete_historical_data env g S E ck))
      ∈ traceOf (fetch_complete_historical_data env g S E ck) := by
  rcases hE : fetch_complete_historical_data env g S E ck with e | o
  · rw [hE] at h1; simp [retOf] at h1
  · obtain ⟨st, rfl⟩ := run_ok_finalize env g S E ck o hE
    rw [hE] at h1 h2
    simp only [retOf] at h1
    simp only [failedOf] at h2 ⊢
    simp only [traceOf]
    rw [finalize_failed] at h2 ⊢
    unfold finalize at h1 ⊢
    have he : st.allData.isEmpty = false := by
      by_contra hc
      simp only [Bool.not_eq_false] at hc
      simp [hc] at h1
    have hf : st.failed.isEmpty = false := by
      rw [List.isEmpty_eq_false]; exact h2
    simp only [he, hf, Bool.false_eq_true, if_false]
    split <;> simp

/-- Witness for C8 at a concrete run with one failed window. -/
theorem claim_C8_witness :
    (retOf (fetch_complete_historical_data envHalf 300 0 180000
        .absent)).isSome = true
    ∧ failedOf (fetch_complete_historical_data envHalf 300 0 180000 .absent)
        = [(90000, 180000)]
    ∧ FsOp.writeFailed (failedOf (fetch_complete_historical_data envHalf 300
        0 180000 .absent))
        ∈ traceOf (fetch_complete_historical_data envHalf 300 0 180000
            .absent) :=
  ⟨by decide, by decide,
   claim_C8 envHalf 300 0 180000 .absent (by decide) (by decide)⟩

/-- Counterexample to C8 as stated: two runs with different sets of
permanently failed windows return the very same value to the caller — the
returned value does not carry the failed-window set at all (it is written
to `failed_requests.txt` instead). -/
theorem claim_C8_cex :
    retOf (fetch_complete_historical_data envHalf 300 0 180000 .absent)
        = retOf (fetch_complete_historical_data envHalf 300 0 90000 .absent)
    ∧ failedOf (fetch_complete_historical_data envHalf 300 0 180000 .absent)
        = [(90000, 180000)]
    ∧ failedOf (fetch_complete_historical_data envHalf 300 0 90000 .absent)
        = [] := by decide

set_option maxRecDepth 100000 in
set_option maxHeartbeats 4000000 in
/-- **C9**: against the ideal daily source with `maxPerRequest = 300`,
fetching 2020-01-01 … 2021-01-01 (Unix 1577836800 … 1609459200, 366 days)
issues exactly 2 requests — the 300-day window followed by the 66-day
remainder, contiguous, non-overlapping and increasing — and the
de-duplicated result has exactly 366 records. -/
theorem claim_C9 :
    reqsOf (fetch_complete_historical_data (idealEnv (fun _ => 0) 86400)
        86400 1577836800 1609459200 .absent)
      = [(1577836800, 1603756800), (1603756800, 1609459200)]
    ∧ (retOf (fetch_complete_historical_data (idealEnv (fun _ => 0) 86400)
        86400 1577836800 1609459200 .absent)).map List.length
      = some 366 := by decide

/-- **C2**: against the ideal source, resuming from a checkpoint holding
exactly the records of `[S, K)` (for any intermediate key
`K = S + m·granularity`, `1 ≤ m`, `K ≤ E`) and re-invoking with the same
range end yields the same final record sequence as a single uninterrupted
run over `[S, E)`: both return exactly the records of `[S, E)`.  The resumed
run restarts at `lastKey + granularity = K` (established inside the
proof via `tsMax`). -/
theorem claim_C2 (val : Nat → Int) (g m S K E : Nat)
    (hg : granularityValid g = true) (hK : K = S + m * g) (hm : 1 ≤ m)
    (hKE : K ≤ E) :
    retOf (fetch_complete_historical_data (idealEnv val g) g S E
        (.valid (keysIn val g S K))) = some (keysIn val g S E)
    ∧ retOf (fetch_complete_historical_data (idealEnv val g) g S E .absent)
        = some (keysIn val g S E) := by
  have hg0 : 0 < g := granularityValid_pos hg
  have hpos : 0 < m * g := Nat.mul_pos hm hg0
  have hSK : S < K := by omega
  have hsplit : keysIn val g S K ++ keysIn val g K E = keysIn val g S E := by
    subst hK
    exact keysIn_append val hg0 m S E hKE
  constructor
  · have hnel : keysIn val g S K ≠ [] := keysIn_ne_nil val hg0 hSK
    have hne : (keysIn val g S K).isEmpty = false := by
      rw [List.isEmpty_eq_false]; exact hnel
    have hmax : tsMax (keysIn val g S K) + g = K := by
      rw [hK, tsMax_keysIn val hg0 S m hm]
      have h1 : m - 1 + 1 = m := by omega
      calc S + (m - 1) * g + g = S + ((m - 1) + 1) * g := by ring
        _ = S + m * g := by rw [h1]
    simp only [fetch_complete_historical_data, hne, Bool.false_eq_true,
      if_false]
    rw [hmax]
    obtain ⟨st', hLoop, hflat, hne'⟩ := fetchLoop_ideal val hg hg0 E E
      { allData := [keysIn val g S K], cur := K, reqCount := 0, failed := [],
        requests := [], trace := [], ckpt := .valid (keysIn val g S K) }
      (Nat.sub_le E K)
    rw [hLoop]
    simp only [retOf]
    rw [finalize_ret_of_ne st' (hne' (Or.inl (by simp)))]
    rw [hflat]
    simp only [List.flatten_cons, List.flatten_nil, List.append_nil]
    rw [hsplit, dropDupTs_keysIn val hg0, sortTs_keysIn val hg0]
  · simp only [fetch_complete_historical_data]
    obtain ⟨st', hLoop, hflat, hne'⟩ := fetchLoop_ideal val hg hg0 E E
      { allData := [], cur := S, reqCount := 0, failed := [], requests := [],
        trace := [], ckpt := .absent }
      (Nat.sub_le E S)
    rw [hLoop]
    simp only [retOf]
    rw [finalize_ret_of_ne st' (hne' (Or.inr (show S < E by omega)))]
    rw [hflat]
    simp only [List.flatten_nil, List.nil_append]
    rw [dropDupTs_keysIn val hg0, sortTs_keysIn val hg0]

/-- Witness for C2: a two-step range resumed at its midpoint. -/
theorem claim_C2_witness :
    granularityValid 300 = true
    ∧ (retOf (fetch_complete_historical_data (idealEnv (fun _ => 0) 300) 300
          0 600 (.valid (keysIn (fun _ => 0) 300 0 300)))
        = some (keysIn (fun _ => 0) 300 0 600)
      ∧ retOf (fetch_complete_historical_data (idealEnv (fun _ => 0) 300) 300
          0 600 .absent) = some (keysIn (fun _ => 0) 300 0 600)) :=
  ⟨by decide,
   claim_C2 (fun _ => 0) 300 1 0 300 600 (by decide) (by decide) (by decide)
     (by decide)⟩

/-! Retry accounting against a source that fails the first `k` attempts of
the single window `[S, S + 300·g)`. -/

theorem fetchCandles_envFailK (val : Nat → Int) {g : Nat}
    (hg : granularityValid g = true) (hg0 : 0 < g) (S k : Nat) (a : Nat) :
    fetchCandles (envFailK val g k) g S (S + 300 * g) a
      = (if a < k then none else some (keysIn val g S (S + 300 * g)),
         [(S, S + 300 * g)]) := by
  have hadj : adjEnd g S (S + 300 * g) = S + 300 * g := by
    unfold adjEnd; rw [if_neg]; omega
  have hne : (keysIn val g S (S + 300 * g)).isEmpty = false := by
    rw [List.isEmpty_eq_false]
    refine keysIn_ne_nil val hg0 ?_
    have := Nat.mul_pos (show 0 < 300 by omega) hg0
    omega
  by_cases hak : a < k
  · simp [fetchCandles, hg, hadj, envFailK, hak]
  · simp [fetchCandles, hg, hadj, envFailK, hak, hne, sortTs_keysIn val hg0]

theorem retryFetch_envFailK_lt (val : Nat → Int) {g : Nat}
    (hg : granularityValid g = true) (hg0 : 0 < g) (S k : Nat) (hk : k < 3) :
    retryFetch (envFailK val g k) g S (S + 300 * g) 3 0
      = (some (keysIn val g S (S + 300 * g)),
         List.replicate (k + 1) (S, S + 300 * g)) := by
  interval_cases k <;>
    simp [retryFetch, fetchCandles_envFailK val hg hg0, List.replicate]

theorem retryFetch_envFailK_ge (val : Nat → Int) {g : Nat}
    (hg : granularityValid g = true) (hg0 : 0 < g) (S k : Nat) (hk : 3 ≤ k) :
    retryFetch (envFailK val g k) g S (S + 300 * g) 3 0
      = (none, [(S, S + 300 * g), (S, S + 300 * g), (S, S + 300 * g)]) := by
  have h0 : 0 < k := by omega
  have h1 : 1 < k := by omega
  have h2 : 2 < k := by omega
  simp [retryFetch, fetchCandles_envFailK val hg hg0, h0, h1, h2]

/-- **C3** (amended): the retry loop makes at most `MaxRetries = 3`
attempts in total (the first attempt is counted).  A source failing a
window exactly `MaxRetries − 1 = 2` times (or fewer) and then succeeding
gets `k + 1 ≤ 3` requests, its records appear, and the window is not in
`FailedWindows`; after `MaxRetries = 3` consecutive failures the window is
added to `FailedWindows` with exactly 3 requests issued and no further
attempt — a success on the 4th attempt would come too late. -/
theorem claim_C3 (val : Nat → Int) (g S k : Nat)
    (hg : granularityValid g = true) :
    (k < 3 →
      retOf (fetch_complete_historical_data (envFailK val g k) g S
          (S + 300 * g) .absent) = some (keysIn val g S (S + 300 * g))
      ∧ failedOf (fetch_complete_historical_data (envFailK val g k) g S
          (S + 300 * g) .absent) = []
      ∧ (reqsOf (fetch_complete_historical_data (envFailK val g k) g S
          (S + 300 * g) .absent)).length = k + 1)
    ∧ (3 ≤ k →
      retOf (fetch_complete_historical_data (envFailK val g k) g S
          (S + 300 * g) .absent) = none
      ∧ failedOf (fetch_complete_historical_data (envFailK val g k) g S
          (S + 300 * g) .absent) = [(S, S + 300 * g)]
      ∧ (reqsOf (fetch_complete_historical_data (envFailK val g k) g S
          (S + 300 * g) .absent)).length = 3) := by
  have hg0 : 0 < g := granularityValid_pos hg
  have h300 : 0 < 300 * g := Nat.mul_pos (by omega) hg0
  have hSE : S < S + 300 * g := by omega
  have hmin : min (S + 300 * g) (S + 300 * g) = S + 300 * g := by omega
  have hrun : fetch_complete_historical_data (envFailK val g k) g S
      (S + 300 * g) .absent
      = .ok (finalize (step (envFailK val g k) g (S + 300 * g) (300 * g)
          { allData := [], cur := S, reqCount := 0, failed := [],
            requests := [], trace := [], ckpt := .absent })) := by
    simp only [fetch_complete_historical_data]
    rw [fetchLoop_one _ _ _ _ _ _ hSE
      (by rw [step_cur]; dsimp only; rw [hmin]; omega) (by omega)]
  rw [hrun]
  have hne : (keysIn val g S (S + 300 * g)).isEmpty = false := by
    rw [List.isEmpty_eq_false]
    exact keysIn_ne_nil val hg0 hSE
  constructor
  · intro hk
    have hr2 : retryFetch (envFailK val g k) g S
        (min (S + 300 * g) (S + 300 * g)) 3 0
        = (some (keysIn val g S (S + 300 * g)),
           List.replicate (k + 1) (S, S + 300 * g)) := by
      rw [hmin]; exact retryFetch_envFailK_lt val hg hg0 S k hk
    rw [step_of_retry_some (envFailK val g k) g (S + 300 * g) (300 * g)
      { allData := [], cur := S, reqCount := 0, failed := [], requests := [],
        trace := [], ckpt := .absent } _ _ hr2 hne rfl]
    simp only [retOf, failedOf, reqsOf]
    rw [finalize_ret_of_ne _ (by simp), finalize_failed, finalize_requests]
    refine ⟨?_, rfl, ?_⟩
    · simp only [List.nil_append, List.flatten_cons, List.flatten_nil,
        List.append_nil]
      rw [dropDupTs_keysIn val hg0, sortTs_keysIn val hg0]
    · simp
  · intro hk
    have hr2 : retryFetch (envFailK val g k) g S
        (min (S + 300 * g) (S + 300 * g)) 3 0
        = (none, [(S, S + 300 * g), (S, S + 300 * g), (S, S + 300 * g)]) := by
      rw [hmin]; exact retryFetch_envFailK_ge val hg hg0 S k hk
    rw [step_of_retry_none _ _ _ _ _ _ hr2]
    simp only [retOf, failedOf, reqsOf]
    rw [finalize_failed, finalize_requests]
    refine ⟨?_, by dsimp only; rw [hmin]; simp, by simp⟩
    unfold finalize
    simp

/-- Witness for C3 at `k = 2` (success on the third attempt) and `k = 3`
(permanent failure). -/
theorem claim_C3_witness :
    granularityValid 300 = true
    ∧ (retOf (fetch_complete_historical_data (envFailK (fun _ => 0) 300 2)
          300 0 (0 + 300 * 300) .absent)
        = some (keysIn (fun _ => 0) 300 0 (0 + 300 * 300))
      ∧ failedOf (fetch_complete_historical_data (envFailK (fun _ => 0) 300
          2) 300 0 (0 + 300 * 300) .absent) = []
      ∧ (reqsOf (fetch_complete_historical_data (envFailK (fun _ => 0) 300
          2) 300 0 (0 + 300 * 300) .absent)).length = 2 + 1)
    ∧ (retOf (fetch_complete_historical_data (envFailK (fun _ => 0) 300 3)
          300 0 (0 + 300 * 300) .absent) = none
      ∧ failedOf (fetch_complete_historical_data (envFailK (fun _ => 0) 300
          3) 300 0 (0 + 300 * 300) .absent) = [(0, 0 + 300 * 300)]
      ∧ (reqsOf (fetch_complete_historical_data (envFailK (fun _ => 0) 300
          3) 300 0 (0 + 300 * 300) .absent)).length = 3) :=
  ⟨by decide,
   (claim_C3 (fun _ => 0) 300 0 2 (by decide)).1 (by decide),
   (claim_C3 (fun _ => 0) 300 0 3 (by decide)).2 (by decide)⟩

/-- Counterexample to C3 as stated: a source that fails the single window
`[0, 90000)` exactly `MaxRetries = 3` times and would succeed on the next
attempt.  The fetcher stops after the 3 failed attempts (exactly 3 requests
are issued, never a 4th), adds the window to `FailedWindows`, and returns
no records for it. -/
theorem claim_C3_cex :
    failedOf (fetch_complete_historical_data (envFailK (fun _ => 0) 300 3)
        300 0 90000 .absent) = [(0, 90000)]
    ∧ (reqsOf (fetch_complete_historical_data (envFailK (fun _ => 0) 300 3)
        300 0 90000 .absent)).length = 3
    ∧ retOf (fetch_complete_historical_data (envFailK (fun _ => 0) 300 3)
        300 0 90000 .absent) = none := by decide

end WrappedStable
